import Mathlib

/-!
Verification of the nox-maps core pipeline: the log tailer (internal/eqlog),
the state engine (internal/parser, the variant with zone filtering and the
extended corpse-recovery rule set), and the zone map loader (internal/maps).

Strings are modelled as `List Char`; Go float64 values are modelled as `ℚ`
(the claims under study involve only exact arithmetic: negation, subtraction,
comparison with 1/10); `math.Atan2` is kept abstract as a parameter since it
is transcendental.  Lines delivered by the tailer never contain a newline
(they are produced by `ReadString` up to a newline and then trimmed), so the
regex dot is modelled as matching any character.
-/

/-! String primitives (models of the Go strings package operations used) -/

/-- Model of a byte-wise prefix test (strings.HasPrefix). -/
def startsWith : List Char → List Char → Bool
  | _, [] => true
  | [], _ :: _ => false
  | c :: s, d :: p => c == d && startsWith s p

/-- Model of strings.Contains: `sub` occurs as a contiguous substring of `s`. -/
def strContains : List Char → List Char → Bool
  | [], sub => sub.isEmpty
  | s@(_ :: t), sub => startsWith s sub || strContains t sub

/-- Model of strings.HasSuffix. -/
def endsWith (s suf : List Char) : Bool :=
  startsWith s.reverse suf.reverse

/-- ASCII whitespace test; the log and map lines only contain these space forms. -/
def isSpaceCh (c : Char) : Bool :=
  c == ' ' || c == '\t' || c == '\n' || c == '\r'

/-- Model of strings.TrimSpace restricted to ASCII whitespace. -/
def trimSpace (l : List Char) : List Char :=
  ((l.dropWhile isSpaceCh).reverse.dropWhile isSpaceCh).reverse

/-- Model of strings.TrimLeft with cutset " ," as used in the map loader. -/
def trimLeftSpComma (l : List Char) : List Char :=
  l.dropWhile (fun c => c == ' ' || c == ',')

/-- Model of strings.Split on a comma: always at least one field. -/
def splitComma : List Char → List (List Char)
  | [] => [[]]
  | c :: cs =>
    if c == ',' then [] :: splitComma cs
    else
      match splitComma cs with
      | p :: ps => (c :: p) :: ps
      | [] => [[c]]

/-- Model of strings.Join with separator ",". -/
def joinComma : List (List Char) → List Char
  | [] => []
  | [p] => p
  | p :: ps => p ++ ',' :: joinComma ps

/-- Lower-case a string character-wise (ASCII, as map file names use). -/
def lowerStr (s : List Char) : List Char := s.map Char.toLower

/-! Numeric parsing (models of strconv.ParseFloat / strconv.Atoi with the
error value ignored, which in Go leaves the zero value) -/

def digitsOnly (l : List Char) : Bool := l.all Char.isDigit

def natOfDigits (l : List Char) : ℕ :=
  l.foldl (fun n c => 10 * n + (c.toNat - 48)) 0

/-- Split a char list at the first occurrence of a dot. -/
def splitAtDot : List Char → Option (List Char × List Char)
  | [] => none
  | c :: cs =>
    if c == '.' then some ([], cs)
    else
      match splitAtDot cs with
      | some (a, b) => some (c :: a, b)
      | none => none

/-- Unsigned part of a plain decimal literal: digits, optionally with one dot
(`5`, `5.`, `.5`, `5.25`).  Anything else parses to 0, as the Go code ignores
the ParseFloat error and keeps the zero value.  Exponent and special forms do
not occur in the inputs under study and are not modelled. -/
def parseUnsignedDec (l : List Char) : ℚ :=
  match splitAtDot l with
  | none => if digitsOnly l && !l.isEmpty then (natOfDigits l : ℚ) else 0
  | some (a, b) =>
    if digitsOnly a && digitsOnly b && !(a.isEmpty && b.isEmpty) && (splitAtDot b).isNone then
      (natOfDigits a : ℚ) + (natOfDigits b : ℚ) / ((10 : ℚ) ^ b.length)
    else 0

/-- Model of strconv.ParseFloat with the error ignored (syntax error gives 0). -/
def parseFloatRaw (l : List Char) : ℚ :=
  match l with
  | '+' :: r => parseUnsignedDec r
  | '-' :: r => -(parseUnsignedDec r)
  | r => parseUnsignedDec r

/-- The loader's parseFloat helper: TrimSpace then ParseFloat, error ignored. -/
def parseFloatGo (l : List Char) : ℚ := parseFloatRaw (trimSpace l)

/-- Core of strconv.Atoi with the error ignored: optional sign then digits. -/
def atoiCore (l : List Char) : ℤ :=
  match l with
  | '+' :: ds => if digitsOnly ds && !ds.isEmpty then (natOfDigits ds : ℤ) else 0
  | '-' :: ds => if digitsOnly ds && !ds.isEmpty then -(natOfDigits ds : ℤ) else 0
  | ds => if digitsOnly ds && !ds.isEmpty then (natOfDigits ds : ℤ) else 0

/-- The loader's parseInt helper: TrimSpace then Atoi, error ignored. -/
def parseIntGo (l : List Char) : ℤ := atoiCore (trimSpace l)

/-! The two log-line patterns of the state engine

The engine compiles `Your Location is ([0-9.-]+), ([0-9.-]+), ([0-9.-]+)` and
`You have entered (.+)\.`.  Both are modelled as leftmost-match scanners: Go's
regexp engine tries each start position from the left and, at the first
position where the whole pattern matches, returns the greedy captures.  For
the location pattern the character class excludes comma and space, so each
capture is exactly the maximal run of class characters at its position.  For
the zone pattern the greedy `(.+)` extends to the last dot of the remainder,
provided at least one character precedes that dot. -/

def locMarker : List Char := "Your Location is ".toList

def zoneMarker : List Char := "You have entered ".toList

/-- Character class `[0-9.-]`. -/
def isNumCh (c : Char) : Bool := c.isDigit || c == '.' || c == '-'

/-- Attempt the tail of the location pattern right after the literal marker. -/
def locTry (rest : List Char) : Option (List Char × List Char × List Char) :=
  let p1 := rest.span isNumCh
  if p1.1.isEmpty then none else
  match p1.2 with
  | ',' :: ' ' :: r2 =>
    let p2 := r2.span isNumCh
    if p2.1.isEmpty then none else
    match p2.2 with
    | ',' :: ' ' :: r4 =>
      let p3 := r4.span isNumCh
      if p3.1.isEmpty then none else some (p1.1, p2.1, p3.1)
    | _ => none
  | _ => none

/-- Leftmost match of the location pattern, returning the three captures. -/
def locCaptureAux : List Char → Option (List Char × List Char × List Char)
  | [] => none
  | s@(_ :: t) =>
    if startsWith s locMarker then
      match locTry (s.drop locMarker.length) with
      | some r => some r
      | none => locCaptureAux t
    else locCaptureAux t

def locCapture (line : List Char) : Option (List Char × List Char × List Char) :=
  locCaptureAux line

/-- Split `r` at its last dot: `r = z ++ dot ++ post` with `post` dot-free. -/
def lastDotSplit : List Char → Option (List Char × List Char)
  | [] => none
  | c :: cs =>
    match lastDotSplit cs with
    | some (z, post) => some (c :: z, post)
    | none => if c == '.' then some ([], cs) else none

/-- Leftmost match of the zone pattern; the greedy capture runs to the last
dot of the remainder and must be non-empty. -/
def zoneCaptureAux : List Char → Option (List Char)
  | [] => none
  | s@(_ :: t) =>
    if startsWith s zoneMarker then
      match lastDotSplit (s.drop zoneMarker.length) with
      | some (z, _) => if z.isEmpty then zoneCaptureAux t else some z
      | none => zoneCaptureAux t
    else zoneCaptureAux t

def zoneCapture (line : List Char) : Option (List Char) :=
  zoneCaptureAux line

/-! The state engine (internal/parser ProcessLines) -/

structure PlayerState where
  x : ℚ
  y : ℚ
  z : ℚ
  heading : ℚ
  zone : List Char
  corpseX : ℚ
  corpseY : ℚ
  corpseZone : List Char
  hasCorpse : Bool
deriving DecidableEq

structure EngineState where
  ps : PlayerState
  lastX : ℚ
  lastY : ℚ
  hasMoved : Bool
deriving DecidableEq

def pvpLit : List Char := "(PvP)".toList
def areaLit : List Char := " area".toList
def slainLit : List Char := "You have been slain".toList
def summonLit : List Char := "Summoning".toList
def corpseLit : List Char := "corpse".toList
def resLit1 : List Char := "You receive a resurrection".toList
def resLit2 : List Char := "You have been resurrected".toList
def decayLit : List Char := "corpse decays".toList

/-- The heading the position branch stores for a new converted position
(x, y): untouched before the first sample, atan2 of the displacement when it
clears the 0.1 jitter threshold in either axis, untouched otherwise. -/
def headingOf (at2 : ℚ → ℚ → ℚ) (st : EngineState) (x y : ℚ) : ℚ :=
  if st.hasMoved then
    if (1 : ℚ)/10 < |x - st.lastX| ∨ (1 : ℚ)/10 < |y - st.lastY| then
      at2 (y - st.lastY) (x - st.lastX)
    else st.ps.heading
  else st.ps.heading

/-- Position branch: converted coordinates are `x = -eqX`, `y = -eqY` (the log
prints eqY first); heading is recomputed from the displacement only after the
first sample and only past the 0.1 jitter threshold; position and z update
always. -/
def locUpdate (at2 : ℚ → ℚ → ℚ) (st : EngineState)
    (s1 s2 s3 : List Char) : EngineState :=
  let eqY := parseFloatRaw s1
  let eqX := parseFloatRaw s2
  let eqZ := parseFloatRaw s3
  let x := -eqX
  let y := -eqY
  { ps := { st.ps with x := x, y := y, z := eqZ, heading := headingOf at2 st x y },
    lastX := x, lastY := y, hasMoved := true }

/-- Zone branch: a capture containing "(PvP)" or ending in " area" is a status
annotation and is skipped; otherwise a differing name replaces the zone. -/
def zoneUpdate (st : EngineState) (nz : List Char) : EngineState :=
  if strContains nz pvpLit || endsWith nz areaLit then st
  else if nz ≠ st.ps.zone then { st with ps := { st.ps with zone := nz } }
  else st

/-- Death branch: copy current position and zone into the corpse fields. -/
def deathUpdate (st : EngineState) : EngineState :=
  { st with ps := { st.ps with corpseX := st.ps.x, corpseY := st.ps.y,
                               corpseZone := st.ps.zone, hasCorpse := true } }

/-- Recovery test: Summoning together with corpse, or a resurrection line, or
corpse decay. -/
def recoveryMatch (line : List Char) : Bool :=
  (strContains line summonLit && strContains line corpseLit)
    || strContains line resLit1 || strContains line resLit2
    || strContains line decayLit

def clearCorpse (st : EngineState) : EngineState :=
  { st with ps := { st.ps with hasCorpse := false } }

/-- One iteration of the ProcessLines loop body, in its priority order; each
matching branch ends the line's processing (the Go code uses continue). -/
def processLine (at2 : ℚ → ℚ → ℚ) (st : EngineState) (line : List Char) :
    EngineState :=
  match locCapture line with
  | some (s1, s2, s3) => locUpdate at2 st s1 s2 s3
  | none =>
    match zoneCapture line with
    | some nz => zoneUpdate st nz
    | none =>
      if strContains line slainLit then deathUpdate st
      else if recoveryMatch line then clearCorpse st
      else st

/-- Engine state at startup: zero state, with the zone seeded from the
tailer's initial-zone detection when that is non-empty. -/
def initEngine (initialZone : List Char) : EngineState :=
  { ps := { x := 0, y := 0, z := 0, heading := 0,
            zone := if initialZone.isEmpty then [] else initialZone,
            corpseX := 0, corpseY := 0, corpseZone := [], hasCorpse := false },
    lastX := 0, lastY := 0, hasMoved := false }

/-- ProcessLines consumes the queued lines one at a time, in order. -/
def processLines (at2 : ℚ → ℚ → ℚ) (st : EngineState)
    (ls : List (List Char)) : EngineState :=
  ls.foldl (processLine at2) st

/-- The tailer's initial zone detection: scan the trailing lines with the same
zone pattern and keep the last match. -/
def detectInitialZone (ls : List (List Char)) : List Char :=
  ls.foldl (fun acc l => match zoneCapture l with | some z => z | none => acc) []

/-! The zone map loader (internal/maps loader.go)

A directory is modelled as a list of (basename, content lines) pairs in the
order filepath.Glob lists them; the Go code builds a lowercase-keyed map from
that list, in which a later duplicate key overwrites an earlier one.  Colors
are (r, g, b, a) with each channel a Nat below 256; Go's uint8 conversion of
an int truncates to the value modulo 256. -/

structure MapLineM where
  x1 : ℚ
  y1 : ℚ
  z1 : ℚ
  x2 : ℚ
  y2 : ℚ
  z2 : ℚ
  color : ℕ × ℕ × ℕ × ℕ
deriving DecidableEq

structure MapLabelM where
  x : ℚ
  y : ℚ
  z : ℚ
  color : ℕ × ℕ × ℕ × ℕ
  size : ℤ
  text : List Char
deriving DecidableEq

inductive MapItem where
  | seg : MapLineM → MapItem
  | lab : MapLabelM → MapItem
deriving DecidableEq

structure ZoneMapM where
  name : List Char
  lines : List MapLineM
  labels : List MapLabelM
  minX : ℚ
  maxX : ℚ
  minY : ℚ
  maxY : ℚ
deriving DecidableEq

/-- parseColor: all three channels parsing to exactly 0 means unset, replaced
by a gray distinct from pure black; otherwise the parsed channels, truncated
to uint8 as Go's conversion does, with full alpha. -/
def parseColor (r g b : List Char) : ℕ × ℕ × ℕ × ℕ :=
  let ri := parseIntGo r
  let gi := parseIntGo g
  let bi := parseIntGo b
  if ri = 0 ∧ gi = 0 ∧ bi = 0 then (130, 130, 130, 255)
  else ((ri % 256).toNat, (gi % 256).toNat, (bi % 256).toNat, 255)

/-- Strip every byte-order mark, as strings.ReplaceAll does. -/
def stripBom (l : List Char) : List Char := l.filter (fun c => c ≠ '\uFEFF')

/-- Hunt for the first L or P (case-insensitive); return the discriminator in
upper case together with the content after it. -/
def findCmd : List Char → Option (Char × List Char)
  | [] => none
  | c :: cs =>
    if c == 'L' || c == 'l' then some ('L', cs)
    else if c == 'P' || c == 'p' then some ('P', cs)
    else findCmd cs

/-- Sanitize a physical map line and split it into discriminator and fields. -/
def lineParts (raw : List Char) : Option (Char × List (List Char)) :=
  let line := trimSpace (stripBom raw)
  if line.isEmpty then none
  else
    match findCmd line with
    | none => none
    | some (cmd, after) => some (cmd, splitComma (trimLeftSpComma after))

/-- Build a segment from the fields of an L record (at least 6 present). -/
def mkSeg (parts : List (List Char)) : MapLineM :=
  { x1 := parseFloatGo (parts.getD 0 []), y1 := parseFloatGo (parts.getD 1 []),
    z1 := parseFloatGo (parts.getD 2 []),
    x2 := parseFloatGo (parts.getD 3 []), y2 := parseFloatGo (parts.getD 4 []),
    z2 := parseFloatGo (parts.getD 5 []),
    color :=
      if 9 ≤ parts.length then
        parseColor (parts.getD 6 []) (parts.getD 7 []) (parts.getD 8 [])
      else (150, 150, 150, 255) }

/-- Replace underscores by spaces in label text. -/
def underscoreToSpace (l : List Char) : List Char :=
  l.map (fun c => if c == '_' then ' ' else c)

/-- Build a point label from the fields of a P record (at least 7 present). -/
def mkLab (parts : List (List Char)) : MapLabelM :=
  { x := parseFloatGo (parts.getD 0 []), y := parseFloatGo (parts.getD 1 []),
    z := parseFloatGo (parts.getD 2 []),
    color := parseColor (parts.getD 3 []) (parts.getD 4 []) (parts.getD 5 []),
    size := parseIntGo (parts.getD 6 []),
    text :=
      if 8 ≤ parts.length then
        underscoreToSpace (trimSpace (joinComma (parts.drop 7)))
      else [] }

/-- One physical line of a map file: the accepted geometry item, if any. -/
def parseMapLine (raw : List Char) : Option MapItem :=
  match lineParts raw with
  | none => none
  | some (cmd, parts) =>
    if cmd = 'L' then
      if 6 ≤ parts.length then some (MapItem.seg (mkSeg parts)) else none
    else
      if 7 ≤ parts.length then some (MapItem.lab (mkLab parts)) else none

/-- All items accepted from a file's lines, in file order. -/
def parseFileItems (content : List (List Char)) : List MapItem :=
  content.filterMap parseMapLine

/-- updateBounds: expand the running bounding box by one point. -/
def updateBounds (zm : ZoneMapM) (x y : ℚ) : ZoneMapM :=
  { zm with minX := if x < zm.minX then x else zm.minX,
            maxX := if zm.maxX < x then x else zm.maxX,
            minY := if y < zm.minY then y else zm.minY,
            maxY := if zm.maxY < y then y else zm.maxY }

/-- Accept one item into the zone map: segments are appended and expand the
bounds with both endpoints; labels are appended without touching bounds. -/
def addItem (zm : ZoneMapM) : MapItem → ZoneMapM
  | MapItem.seg l =>
    updateBounds (updateBounds { zm with lines := zm.lines ++ [l] } l.x1 l.y1) l.x2 l.y2
  | MapItem.lab p => { zm with labels := zm.labels ++ [p] }

/-- The inverted sentinel bounds the loader starts from. -/
def initZoneMap (name : List Char) : ZoneMapM :=
  { name := name, lines := [], labels := [],
    minX := 99999, maxX := -99999, minY := 99999, maxY := -99999 }

/-- Case-insensitive file lookup: the last directory entry whose lower-cased
basename equals the (already lower-cased) target, matching the Go map built
by overwriting insertion over the glob listing. -/
def lookupFile (dir : List (List Char × List (List Char))) (t : List Char) :
    Option (List (List Char)) :=
  ((dir.filter (fun f => lowerStr f.1 == t)).getLast?).map Prod.snd

/-- The four target filenames: base layer plus numbered layers 1 to 3. -/
def targetsOf (zn : List Char) : List (List Char) :=
  [lowerStr (zn ++ ".txt".toList), lowerStr (zn ++ "_1.txt".toList),
   lowerStr (zn ++ "_2.txt".toList), lowerStr (zn ++ "_3.txt".toList)]

/-- Items contributed by one target: none when the target file is absent. -/
def loadTargetItems (dir : List (List Char × List (List Char)))
    (t : List Char) : List MapItem :=
  match lookupFile dir t with
  | some c => parseFileItems c
  | none => []

/-- Whether a target exists and parsed to a positive item count. -/
def targetHasItems (dir : List (List Char × List (List Char)))
    (t : List Char) : Bool :=
  match lookupFile dir t with
  | some c => !(parseFileItems c).isEmpty
  | none => false

/-- Fold every existing target's items into one zone map, in target order. -/
def loadAllTargets (dir : List (List Char × List (List Char)))
    (zn : List Char) : ZoneMapM :=
  (targetsOf zn).foldl (fun z t => (loadTargetItems dir t).foldl addItem z)
    (initZoneMap zn)

/-- LoadZone: the zone-not-found failure (modelled as none) happens exactly
when no target both exists and parsed to a positive item count. -/
def LoadZone (dir : List (List Char × List (List Char))) (zn : List Char) :
    Option ZoneMapM :=
  if (targetsOf zn).any (targetHasItems dir) then some (loadAllTargets dir zn)
  else none

/-- Every item the four targets contribute, concatenated in target order. -/
def allTargetItems (dir : List (List Char × List (List Char)))
    (zn : List Char) : List MapItem :=
  ((targetsOf zn).map (loadTargetItems dir)).flatten

/-- Segments of an item list, in order. -/
def segsOf (its : List MapItem) : List MapLineM :=
  its.filterMap (fun it => match it with
    | MapItem.seg l => some l
    | MapItem.lab _ => none)

/-- Labels of an item list, in order. -/
def labsOf (its : List MapItem) : List MapLabelM :=
  its.filterMap (fun it => match it with
    | MapItem.seg _ => none
    | MapItem.lab p => some p)

/-- The endpoints an item contributes to the bounding box, in update order. -/
def endpointsOfItem : MapItem → List (ℚ × ℚ)
  | MapItem.seg l => [(l.x1, l.y1), (l.x2, l.y2)]
  | MapItem.lab _ => []

def endpointsOf (its : List MapItem) : List (ℚ × ℚ) :=
  (its.map endpointsOfItem).flatten

/-- One step of the running minimum, as updateBounds performs it. -/
def minStep (m q : ℚ) : ℚ := if q < m then q else m

/-- One step of the running maximum, as updateBounds performs it. -/
def maxStep (m q : ℚ) : ℚ := if m < q then q else m

/-! The tailer's line hand-off (internal/eqlog pollAndRead)

The producer reads raw file lines in order, trims each, discards empty
results, and sends the rest into a channel of capacity 1000, blocking while
the channel is full; the engine receives from the channel.  The concurrent
system is modelled as a trace: a list of booleans schedules which side moves
at each step, a blocked side's step is a no-op. -/

def queueCap : ℕ := 1000

/-- The lines the tailer emits for a given list of raw file lines. -/
def emittedOf (ls : List (List Char)) : List (List Char) :=
  (ls.map trimSpace).filter (fun l => !l.isEmpty)

structure TailSys where
  pending : List (List Char)
  queue : List (List Char)
  consumed : List (List Char)
deriving DecidableEq

/-- Producer step: read the next raw line, trim it, drop it when empty, and
enqueue it otherwise; a full queue blocks the producer (no line is lost). -/
def produceStep (s : TailSys) : TailSys :=
  match s.pending with
  | [] => s
  | l :: rest =>
    let c := trimSpace l
    if c.isEmpty then { s with pending := rest }
    else if s.queue.length < queueCap then
      { s with pending := rest, queue := s.queue ++ [c] }
    else s

/-- Consumer step: the engine receives the line at the head of the queue; an
empty queue blocks the consumer. -/
def consumeStep (s : TailSys) : TailSys :=
  match s.queue with
  | [] => s
  | q :: rest => { s with queue := rest, consumed := s.consumed ++ [q] }

def tailStep (b : Bool) (s : TailSys) : TailSys :=
  if b then produceStep s else consumeStep s

def tailRun (sched : List Bool) (s : TailSys) : TailSys :=
  sched.foldl (fun s b => tailStep b s) s

def tailInit (raw : List (List Char)) : TailSys :=
  { pending := raw, queue := [], consumed := [] }

/-! Concrete example lines used by the testable-property claims -/

def locLine10 : List Char := "Your Location is 10, 20, 3".toList
def locLine00 : List Char := "Your Location is 0, 0, 0".toList
def locLine55 : List Char := "Your Location is -5, -5, 0".toList
def arenaLine : List Char := "You have entered an Arena (PvP) area.".toList
def nexusLine : List Char := "You have entered The Nexus.".toList
def nexusRainLine : List Char := "You have entered The Nexus. It is raining.".toList
def nexusRainCap : List Char := "The Nexus. It is raining".toList
def slainLine : List Char := "You have been slain by a gnoll!".toList
def decayLine : List Char := "Your corpse decays.".toList
def blackMapLine : List Char := "L 100, 200, 0, 300, 400, 0, 256, 0, 0".toList

/-- An L record with only six fields, so with no color fields at all. -/
def grayLine : List Char := "L 1,2,3,4,5,6".toList

/-- The fields the loader splits grayLine into. -/
def grayParts : List (List Char) :=
  ["1".toList, "2".toList, "3".toList, "4".toList, "5".toList, "6".toList]

/-- A two-file directory listing for the zone code qeynos, with a mixed-case
base layer holding one segment and a layer-1 file holding one label. -/
def qDirW : List (List Char × List (List Char)) :=
  [("Qeynos.TXT".toList, ["L 1, 2, 0, 3, 4, 0".toList]),
   ("qeynos_1.txt".toList, ["P 5, 6, 0, 10, 20, 30, 2, Bank".toList])]

/-- The zone map LoadZone builds from qDirW. -/
def qZmW : ZoneMapM :=
  { name := "qeynos".toList,
    lines := [{ x1 := 1, y1 := 2, z1 := 0, x2 := 3, y2 := 4, z2 := 0,
                color := (150, 150, 150, 255) }],
    labels := [{ x := 5, y := 6, z := 0, color := (10, 20, 30, 255), size := 2,
                 text := "Bank".toList }],
    minX := 1, maxX := 3, minY := 2, maxY := 4 }

/-- A state that has already seen a sample at converted position (0, 0). -/
def stMoved0 : EngineState :=
  { ps := { x := 0, y := 0, z := 0, heading := 0, zone := [],
            corpseX := 0, corpseY := 0, corpseZone := [], hasCorpse := false },
    lastX := 0, lastY := 0, hasMoved := true }

/-- A state already at converted position (-20, -10) with a known heading. -/
def stNear : EngineState :=
  { ps := { x := -20, y := -10, z := 0, heading := 7, zone := [],
            corpseX := 0, corpseY := 0, corpseZone := [], hasCorpse := false },
    lastX := -20, lastY := -10, hasMoved := true }

/-- A state at position (5, 5) in zone A whose corpse flag is already set. -/
def stDeadW : EngineState :=
  { ps := { x := 5, y := 5, z := 0, heading := 0, zone := "A".toList,
            corpseX := 1, corpseY := 2, corpseZone := "B".toList, hasCorpse := true },
    lastX := 5, lastY := 5, hasMoved := true }

/-! Unfolding lemmas for the engine's priority dispatch -/

theorem processLine_of_loc {line s1 s2 s3 : List Char}
    (at2 : ℚ → ℚ → ℚ) (st : EngineState)
    (h : locCapture line = some (s1, s2, s3)) :
    processLine at2 st line = locUpdate at2 st s1 s2 s3 := by
  unfold processLine
  rw [h]

theorem processLine_of_zone {line nz : List Char}
    (at2 : ℚ → ℚ → ℚ) (st : EngineState)
    (hl : locCapture line = none) (hz : zoneCapture line = some nz) :
    processLine at2 st line = zoneUpdate st nz := by
  unfold processLine
  rw [hl, hz]

theorem processLine_other {line : List Char}
    (at2 : ℚ → ℚ → ℚ) (st : EngineState)
    (hl : locCapture line = none) (hz : zoneCapture line = none) :
    processLine at2 st line =
      (if strContains line slainLit then deathUpdate st
       else if recoveryMatch line then clearCorpse st else st) := by
  unfold processLine
  rw [hl, hz]

/-- Claim C1: every consumed line matching the position pattern stores x = -f2,
y = -f1 and z = f3 (the converted map coordinates), from any prior engine
state whatsoever, so in particular regardless of the displacement from the
previous sample. -/
theorem position_conversion_stores_swapped_negated
    (at2 : ℚ → ℚ → ℚ) (st : EngineState) (line s1 s2 s3 : List Char)
    (h : locCapture line = some (s1, s2, s3)) :
    (processLine at2 st line).ps.x = -(parseFloatRaw s2)
      ∧ (processLine at2 st line).ps.y = -(parseFloatRaw s1)
      ∧ (processLine at2 st line).ps.z = parseFloatRaw s3 := by
  rw [processLine_of_loc at2 st h]
  refine ⟨rfl, rfl, rfl⟩

/-- Claim C1 witness: the spec's round-trip example, Your Location is 10, 20, 3,
stores position x = -20, y = -10, z = 3. -/
theorem position_conversion_witness :
    locCapture locLine10 = some ("10".toList, "20".toList, "3".toList)
      ∧ ((processLine (fun _ _ => 0) (initEngine []) locLine10).ps.x = -20
          ∧ (processLine (fun _ _ => 0) (initEngine []) locLine10).ps.y = -10
          ∧ (processLine (fun _ _ => 0) (initEngine []) locLine10).ps.z = 3) := by
  refine ⟨by decide, ?_⟩
  have h := position_conversion_stores_swapped_negated (fun _ _ => 0)
    (initEngine []) locLine10 "10".toList "20".toList "3".toList (by decide)
  refine ⟨h.1.trans (by decide), h.2.1.trans (by decide), h.2.2.trans (by decide)⟩

/-- Claim C2: a consumed zone line whose capture contains "(PvP)" or ends in
" area" leaves the whole engine state unchanged; any other zone line leaves
the stored zone equal to the capture (replacing it when it differed). -/
theorem zone_filtering_and_replacement
    (at2 : ℚ → ℚ → ℚ) (st : EngineState) (line nz : List Char)
    (hl : locCapture line = none) (hz : zoneCapture line = some nz) :
    ((strContains nz pvpLit || endsWith nz areaLit) = true →
        processLine at2 st line = st)
      ∧ ((strContains nz pvpLit || endsWith nz areaLit) = false →
        (processLine at2 st line).ps.zone = nz) := by
  rw [processLine_of_zone at2 st hl hz]
  unfold zoneUpdate
  constructor
  · intro hfilter
    rw [hfilter]
    rfl
  · intro hfilter
    rw [hfilter]
    by_cases hne : nz = st.ps.zone
    · simp [hne]
    · simp [hne]

/-- Claim C2 witness: the PvP arena status line leaves the state unchanged, and
entering The Nexus stores exactly that zone name. -/
theorem zone_filtering_witness :
    ((strContains "an Arena (PvP) area".toList pvpLit
        || endsWith "an Arena (PvP) area".toList areaLit) = true
      ∧ processLine (fun _ _ => 0) (initEngine []) arenaLine = initEngine [])
    ∧ ((strContains "The Nexus".toList pvpLit
        || endsWith "The Nexus".toList areaLit) = false
      ∧ (processLine (fun _ _ => 0) (initEngine []) nexusLine).ps.zone
          = "The Nexus".toList) := by
  constructor
  · exact ⟨by decide,
      (zone_filtering_and_replacement (fun _ _ => 0) (initEngine []) arenaLine
        ("an Arena (PvP) area".toList) (by decide) (by decide)).1 (by decide)⟩
  · exact ⟨by decide,
      (zone_filtering_and_replacement (fun _ _ => 0) (initEngine []) nexusLine
        ("The Nexus".toList) (by decide) (by decide)).2 (by decide)⟩

theorem headingOf_first (at2 : ℚ → ℚ → ℚ) (st : EngineState) (x y : ℚ)
    (hm : st.hasMoved = false) :
    headingOf at2 st x y = st.ps.heading := by
  simp [headingOf, hm]

theorem headingOf_big (at2 : ℚ → ℚ → ℚ) (st : EngineState) (x y : ℚ)
    (hm : st.hasMoved = true)
    (hb : (1 : ℚ)/10 < |x - st.lastX| ∨ (1 : ℚ)/10 < |y - st.lastY|) :
    headingOf at2 st x y = at2 (y - st.lastY) (x - st.lastX) := by
  unfold headingOf
  rw [hm, if_pos rfl, if_pos hb]

theorem headingOf_small (at2 : ℚ → ℚ → ℚ) (st : EngineState) (x y : ℚ)
    (hm : st.hasMoved = true)
    (hb : ¬((1 : ℚ)/10 < |x - st.lastX| ∨ (1 : ℚ)/10 < |y - st.lastY|)) :
    headingOf at2 st x y = st.ps.heading := by
  unfold headingOf
  rw [hm, if_pos rfl, if_neg hb]

theorem locUpdate_heading (at2 : ℚ → ℚ → ℚ) (st : EngineState)
    (s1 s2 s3 : List Char) :
    (locUpdate at2 st s1 s2 s3).ps.heading
      = headingOf at2 st (-(parseFloatRaw s2)) (-(parseFloatRaw s1)) := rfl

/-- Claim C4: on the first position sample ever processed the heading stays at its
default zero; on a later sample the heading becomes atan2(dy, dx) of the
displacement from the previously stored converted position when either
component exceeds 0.1 in magnitude, and is left exactly unchanged otherwise;
and for converted positions (0,0) then (5,5) the heading becomes atan2(5,5). -/
theorem heading_update_rule
    (at2 : ℚ → ℚ → ℚ) (st : EngineState) (line s1 s2 s3 z : List Char)
    (h : locCapture line = some (s1, s2, s3)) :
    ((processLine at2 (initEngine z) line).ps.heading = 0)
    ∧ (st.hasMoved = true →
        (((1 : ℚ)/10 < |(-(parseFloatRaw s2)) - st.lastX|
            ∨ (1 : ℚ)/10 < |(-(parseFloatRaw s1)) - st.lastY|) →
          (processLine at2 st line).ps.heading
            = at2 ((-(parseFloatRaw s1)) - st.lastY)
                  ((-(parseFloatRaw s2)) - st.lastX))
        ∧ (¬((1 : ℚ)/10 < |(-(parseFloatRaw s2)) - st.lastX|
            ∨ (1 : ℚ)/10 < |(-(parseFloatRaw s1)) - st.lastY|) →
          (processLine at2 st line).ps.heading = st.ps.heading))
    ∧ (processLines at2 (initEngine []) [locLine00, locLine55]).ps.heading
        = at2 5 5 := by
  refine ⟨?_, fun hm => ⟨?_, ?_⟩, ?_⟩
  · rw [processLine_of_loc at2 (initEngine z) h, locUpdate_heading,
      headingOf_first at2 (initEngine z) _ _ rfl]
    rfl
  · intro hb
    rw [processLine_of_loc at2 st h, locUpdate_heading]
    exact headingOf_big at2 st _ _ hm hb
  · intro hb
    rw [processLine_of_loc at2 st h, locUpdate_heading]
    exact headingOf_small at2 st _ _ hm hb
  · have h00 : locCapture locLine00 = some ("0".toList, "0".toList, "0".toList) := by
      decide
    have h55 : locCapture locLine55 = some ("-5".toList, "-5".toList, "0".toList) := by
      decide
    have hp0 : parseFloatRaw "0".toList = 0 := by decide
    have hp5 : parseFloatRaw "-5".toList = -5 := by decide
    show (List.foldl (processLine at2) (initEngine []) [locLine00, locLine55]).ps.heading
        = at2 5 5
    rw [List.foldl_cons, List.foldl_cons, List.foldl_nil]
    rw [processLine_of_loc at2 (initEngine []) h00]
    set st1 := locUpdate at2 (initEngine []) "0".toList "0".toList "0".toList with hst1
    have hMoved : st1.hasMoved = true := rfl
    have hlx : st1.lastX = 0 := by rw [hst1]; show -(parseFloatRaw "0".toList) = 0; rw [hp0]; norm_num
    have hly : st1.lastY = 0 := by rw [hst1]; show -(parseFloatRaw "0".toList) = 0; rw [hp0]; norm_num
    rw [processLine_of_loc at2 st1 h55, locUpdate_heading]
    rw [headingOf_big at2 st1 _ _ hMoved (by rw [hp5, hlx]; norm_num)]
    rw [hp5, hlx, hly]
    norm_num

/-- Claim C4 witness: the heading rule evaluated on concrete inputs: zero heading
after a first sample, an atan2 update for a large displacement, no update for
a zero displacement, and atan2(5, 5) for the (0,0) to (5,5) pair. -/
theorem heading_update_witness :
    locCapture locLine10 = some ("10".toList, "20".toList, "3".toList)
    ∧ (processLine (fun a b => a + b) (initEngine []) locLine10).ps.heading = 0
    ∧ (processLine (fun a b => a + b) stMoved0 locLine10).ps.heading
        = (fun a b => a + b) ((-(parseFloatRaw "10".toList)) - stMoved0.lastY)
            ((-(parseFloatRaw "20".toList)) - stMoved0.lastX)
    ∧ (processLine (fun a b => a + b) stNear locLine10).ps.heading
        = stNear.ps.heading
    ∧ (processLines (fun a b => a + b) (initEngine []) [locLine00, locLine55]).ps.heading
        = (fun a b => a + b) 5 5 := by
  have hcap : locCapture locLine10 = some ("10".toList, "20".toList, "3".toList) := by
    decide
  have hp10 : parseFloatRaw "10".toList = 10 := by decide
  have hp20 : parseFloatRaw "20".toList = 20 := by decide
  refine ⟨hcap, ?_, ?_, ?_, ?_⟩
  · exact (heading_update_rule (fun a b => a + b) (initEngine []) locLine10
      "10".toList "20".toList "3".toList [] hcap).1
  · exact ((heading_update_rule (fun a b => a + b) stMoved0 locLine10
      "10".toList "20".toList "3".toList [] hcap).2.1 rfl).1
      (by rw [hp20]; left; norm_num [stMoved0])
  · exact ((heading_update_rule (fun a b => a + b) stNear locLine10
      "10".toList "20".toList "3".toList [] hcap).2.1 rfl).2
      (by rw [hp20, hp10]; push_neg; norm_num [stNear])
  · exact (heading_update_rule (fun a b => a + b) stNear locLine10
      "10".toList "20".toList "3".toList [] hcap).2.2

theorem locUpdate_hasCorpse (at2 : ℚ → ℚ → ℚ) (st : EngineState)
    (s1 s2 s3 : List Char) :
    (locUpdate at2 st s1 s2 s3).ps.hasCorpse = st.ps.hasCorpse := rfl

theorem zoneUpdate_hasCorpse (st : EngineState) (nz : List Char) :
    (zoneUpdate st nz).ps.hasCorpse = st.ps.hasCorpse := by
  unfold zoneUpdate
  split
  · rfl
  · split
    · rfl
    · rfl

/-- Claim C5: a consumed line containing "You have been slain" copies the current
position and the current zone into the corpse fields and raises the corpse
flag, from any prior state, so in particular it overwrites a previous corpse
location even when the flag was already set. -/
theorem death_copies_position_and_zone
    (at2 : ℚ → ℚ → ℚ) (st : EngineState) (line : List Char)
    (hl : locCapture line = none) (hz : zoneCapture line = none)
    (hs : strContains line slainLit = true) :
    (processLine at2 st line).ps.corpseX = st.ps.x
    ∧ (processLine at2 st line).ps.corpseY = st.ps.y
    ∧ (processLine at2 st line).ps.corpseZone = st.ps.zone
    ∧ (processLine at2 st line).ps.hasCorpse = true := by
  rw [processLine_other at2 st hl hz, if_pos hs]
  exact ⟨rfl, rfl, rfl, rfl⟩

/-- Claim C5 witness: a slain line processed in a state that already has a corpse
set still copies the current position (5, 5) and zone A over the old corpse. -/
theorem death_overwrite_witness :
    strContains slainLine slainLit = true
    ∧ stDeadW.ps.hasCorpse = true
    ∧ (processLine (fun _ _ => 0) stDeadW slainLine).ps.corpseX = stDeadW.ps.x
    ∧ (processLine (fun _ _ => 0) stDeadW slainLine).ps.corpseY = stDeadW.ps.y
    ∧ (processLine (fun _ _ => 0) stDeadW slainLine).ps.corpseZone = stDeadW.ps.zone
    ∧ (processLine (fun _ _ => 0) stDeadW slainLine).ps.hasCorpse = true := by
  have h := death_copies_position_and_zone (fun _ _ => 0) stDeadW slainLine
    (by decide) (by decide) (by decide)
  exact ⟨by decide, rfl, h.1, h.2.1, h.2.2.1, h.2.2.2⟩

/-- Claim C6: a consumed line matching the recovery rule (Summoning together with
corpse, a resurrection message, or corpse decay) clears the corpse flag, and
a line matching none of those phrases never clears an already-set flag. -/
theorem recovery_clears_corpse_flag
    (at2 : ℚ → ℚ → ℚ) (st : EngineState) (line : List Char) :
    ((locCapture line = none) → (zoneCapture line = none) →
      strContains line slainLit = false → recoveryMatch line = true →
      (processLine at2 st line).ps.hasCorpse = false)
    ∧ (recoveryMatch line = false → st.ps.hasCorpse = true →
      (processLine at2 st line).ps.hasCorpse = true) := by
  constructor
  · intro hl hz hs hr
    rw [processLine_other at2 st hl hz, if_neg (by simp [hs]), if_pos hr]
    rfl
  · intro hr hc
    unfold processLine
    cases hlc : locCapture line with
    | some v =>
      obtain ⟨s1, s2, s3⟩ := v
      show (locUpdate at2 st s1 s2 s3).ps.hasCorpse = true
      rw [locUpdate_hasCorpse]
      exact hc
    | none =>
      cases hzc : zoneCapture line with
      | some nz =>
        show (zoneUpdate st nz).ps.hasCorpse = true
        rw [zoneUpdate_hasCorpse]
        exact hc
      | none =>
        by_cases hs : strContains line slainLit = true
        · rw [if_pos hs]
          rfl
        · rw [if_neg hs, if_neg (by simp [hr])]
          exact hc

/-- Claim C6 witness: a corpse-decay line clears the flag, and a slain line (which
matches none of the recovery phrases) does not clear an already-set flag. -/
theorem recovery_witness :
    recoveryMatch decayLine = true
    ∧ (processLine (fun _ _ => 0) stDeadW decayLine).ps.hasCorpse = false
    ∧ recoveryMatch slainLine = false
    ∧ (processLine (fun _ _ => 0) stDeadW slainLine).ps.hasCorpse = true := by
  refine ⟨by decide, ?_, by decide, ?_⟩
  · exact (recovery_clears_corpse_flag (fun _ _ => 0) stDeadW decayLine).1
      (by decide) (by decide) (by decide) (by decide)
  · exact (recovery_clears_corpse_flag (fun _ _ => 0) stDeadW slainLine).2
      (by decide) rfl

theorem startsWith_drop : ∀ (p s : List Char), startsWith s p = true →
    s = p ++ s.drop p.length
  | [], s, _ => by simp
  | d :: p, [], h => by simp [startsWith] at h
  | d :: p, c :: s, h => by
    have h2 : c = d ∧ startsWith s p = true := by
      have h3 : (c == d && startsWith s p) = true := h
      simpa [Bool.and_eq_true, beq_iff_eq] using h3
    obtain ⟨rfl, hrest⟩ := h2
    have ih := startsWith_drop p s hrest
    simp only [List.length_cons, List.drop_succ_cons, List.cons_append]
    exact congrArg (c :: ·) ih

theorem lastDotSplit_none : ∀ (r : List Char), lastDotSplit r = none → '.' ∉ r
  | [], _ => by simp
  | c :: cs, h => by
    unfold lastDotSplit at h
    cases hcs : lastDotSplit cs with
    | some v => simp [hcs] at h
    | none =>
      simp only [hcs] at h
      by_cases hc : c = '.'
      · simp [hc] at h
      · have ih := lastDotSplit_none cs hcs
        simp only [List.mem_cons, not_or]
        exact ⟨fun heq => hc heq.symm, ih⟩

theorem lastDotSplit_eq : ∀ (r z post : List Char),
    lastDotSplit r = some (z, post) → r = z ++ '.' :: post ∧ '.' ∉ post
  | [], z, post, h => by simp [lastDotSplit] at h
  | c :: cs, z, post, h => by
    unfold lastDotSplit at h
    cases hcs : lastDotSplit cs with
    | some v =>
      obtain ⟨z2, post2⟩ := v
      simp only [hcs] at h
      obtain ⟨hz, hpost⟩ : c :: z2 = z ∧ post2 = post := by
        constructor <;> [exact congrArg Prod.fst (Option.some.inj h);
          exact congrArg Prod.snd (Option.some.inj h)]
      have ih := lastDotSplit_eq cs z2 post2 hcs
      subst hpost
      rw [← hz]
      exact ⟨by rw [List.cons_append, ← ih.1], ih.2⟩
    | none =>
      simp only [hcs] at h
      by_cases hc : c = '.'
      · simp only [hc, beq_self_eq_true, if_true] at h
        obtain ⟨hz, hpost⟩ : ([] : List Char) = z ∧ cs = post := by
          constructor <;> [exact congrArg Prod.fst (Option.some.inj h);
            exact congrArg Prod.snd (Option.some.inj h)]
        subst hpost
        rw [← hz, hc]
        exact ⟨rfl, lastDotSplit_none cs hcs⟩
      · simp [hc] at h

theorem zoneCaptureAux_spec : ∀ (line z : List Char),
    zoneCaptureAux line = some z →
    ∃ pre post, line = pre ++ zoneMarker ++ z ++ '.' :: post
      ∧ z ≠ [] ∧ '.' ∉ post
  | [], z, h => by simp [zoneCaptureAux] at h
  | c :: t, z, h => by
    unfold zoneCaptureAux at h
    by_cases hsw : startsWith (c :: t) zoneMarker = true
    · rw [if_pos hsw] at h
      cases hld : lastDotSplit ((c :: t).drop zoneMarker.length) with
      | some v =>
        obtain ⟨z2, post⟩ := v
        simp only [hld] at h
        by_cases hz : z2.isEmpty = true
        · rw [if_pos hz] at h
          obtain ⟨pre, post2, hline, hnz, hnd⟩ := zoneCaptureAux_spec t z h
          exact ⟨c :: pre, post2, by simp [hline], hnz, hnd⟩
        · rw [if_neg hz] at h
          obtain rfl : z2 = z := Option.some.inj h
          have hdrop := startsWith_drop zoneMarker (c :: t) hsw
          have hsplit := lastDotSplit_eq _ _ _ hld
          refine ⟨[], post, ?_, ?_, hsplit.2⟩
          · rw [List.nil_append, hdrop, hsplit.1]
            rw [List.append_assoc]
          · intro hz0
            rw [hz0] at hz
            exact hz rfl
      | none =>
        simp only [hld] at h
        obtain ⟨pre, post2, hline, hnz, hnd⟩ := zoneCaptureAux_spec t z h
        exact ⟨c :: pre, post2, by simp [hline], hnz, hnd⟩
    · rw [if_neg hsw] at h
      obtain ⟨pre, post2, hline, hnz, hnd⟩ := zoneCaptureAux_spec t z h
      exact ⟨c :: pre, post2, by simp [hline], hnz, hnd⟩

theorem detectInitialZone_last (ls : List (List Char)) (l z : List Char)
    (h : zoneCapture l = some z) : detectInitialZone (ls ++ [l]) = z := by
  unfold detectInitialZone
  rw [List.foldl_append]
  show (match zoneCapture l with | some z2 => z2 | none => _) = z
  rw [h]

/-- Claim C10: every successful zone capture is delimited by the last period of the
line, with a non-empty capture that may itself contain periods; the example
line with two sentences captures up to the second period; and the tailer's
initial-zone detection applies the same capture per line, keeping the last
match. -/
theorem zone_capture_greedy_to_last_period :
    (∀ line z, zoneCapture line = some z →
      ∃ pre post, line = pre ++ zoneMarker ++ z ++ '.' :: post
        ∧ z ≠ [] ∧ '.' ∉ post)
    ∧ zoneCapture nexusRainLine = some nexusRainCap
    ∧ (∀ ls l z, zoneCapture l = some z → detectInitialZone (ls ++ [l]) = z) := by
  exact ⟨fun line z h => zoneCaptureAux_spec line z h, by decide,
    fun ls l z h => detectInitialZone_last ls l z h⟩

/-- Claim C10 witness: the raining-Nexus line decomposes around its final period
with the capture containing the first period, and the tailer's scan over a
line list ending in that line detects exactly that capture. -/
theorem zone_capture_greedy_witness :
    (∃ pre post, nexusRainLine = pre ++ zoneMarker ++ nexusRainCap ++ '.' :: post
      ∧ nexusRainCap ≠ [] ∧ '.' ∉ post)
    ∧ detectInitialZone [slainLine, nexusRainLine] = nexusRainCap := by
  constructor
  · exact zone_capture_greedy_to_last_period.1 nexusRainLine nexusRainCap (by decide)
  · exact zone_capture_greedy_to_last_period.2.2 [slainLine] nexusRainLine
      nexusRainCap (by decide)

theorem emittedOf_cons (l : List Char) (rest : List (List Char)) :
    emittedOf (l :: rest)
      = if (trimSpace l).isEmpty then emittedOf rest
        else trimSpace l :: emittedOf rest := by
  unfold emittedOf
  rw [List.map_cons, List.filter_cons]
  by_cases h : (trimSpace l).isEmpty <;> simp [h]

/-- The total line sequence a tailer system accounts for: already consumed,
still queued, then what the pending file lines will emit. -/
def tailInv (s : TailSys) : List (List Char) :=
  s.consumed ++ s.queue ++ emittedOf s.pending

theorem produceStep_nil (s : TailSys) (hp : s.pending = []) :
    produceStep s = s := by
  unfold produceStep
  rw [hp]

theorem produceStep_cons (s : TailSys) (l : List Char)
    (rest : List (List Char)) (hp : s.pending = l :: rest) :
    produceStep s
      = (if (trimSpace l).isEmpty then { s with pending := rest }
         else if s.queue.length < queueCap then
           { s with pending := rest, queue := s.queue ++ [trimSpace l] }
         else s) := by
  unfold produceStep
  rw [hp]

theorem produceStep_inv (s : TailSys) : tailInv (produceStep s) = tailInv s := by
  cases hp : s.pending with
  | nil => rw [produceStep_nil s hp]
  | cons l rest =>
    rw [produceStep_cons s l rest hp]
    by_cases he : (trimSpace l).isEmpty = true
    · rw [if_pos he]
      unfold tailInv
      simp [hp, emittedOf_cons, he]
    · rw [if_neg he]
      by_cases hq : s.queue.length < queueCap
      · rw [if_pos hq]
        unfold tailInv
        simp [hp, emittedOf_cons, he]
      · rw [if_neg hq]

theorem consumeStep_inv (s : TailSys) : tailInv (consumeStep s) = tailInv s := by
  unfold consumeStep
  cases hq : s.queue with
  | nil => rfl
  | cons q rest =>
    unfold tailInv
    simp [hq]

theorem tailStep_inv (b : Bool) (s : TailSys) : tailInv (tailStep b s) = tailInv s := by
  unfold tailStep
  cases b
  · exact consumeStep_inv s
  · exact produceStep_inv s

theorem tailRun_inv (sched : List Bool) : ∀ s : TailSys,
    tailInv (tailRun sched s) = tailInv s := by
  induction sched with
  | nil => intro s; rfl
  | cons b bs ih =>
    intro s
    show tailInv (tailRun bs (tailStep b s)) = tailInv s
    rw [ih (tailStep b s), tailStep_inv]

theorem produceStep_len (s : TailSys) (h : s.queue.length ≤ queueCap) :
    (produceStep s).queue.length ≤ queueCap := by
  cases hp : s.pending with
  | nil => rw [produceStep_nil s hp]; exact h
  | cons l rest =>
    rw [produceStep_cons s l rest hp]
    by_cases he : (trimSpace l).isEmpty = true
    · rw [if_pos he]
      exact h
    · rw [if_neg he]
      by_cases hq : s.queue.length < queueCap
      · rw [if_pos hq]
        show (s.queue ++ [trimSpace l]).length ≤ queueCap
        simp only [List.length_append, List.length_cons, List.length_nil]
        omega
      · rw [if_neg hq]
        exact h

theorem consumeStep_len (s : TailSys) (h : s.queue.length ≤ queueCap) :
    (consumeStep s).queue.length ≤ queueCap := by
  unfold consumeStep
  cases hq : s.queue with
  | nil => exact h
  | cons q rest =>
    rw [hq] at h
    simp only [List.length_cons] at h
    show rest.length ≤ queueCap
    omega

theorem tailRun_len (sched : List Bool) : ∀ s : TailSys,
    s.queue.length ≤ queueCap → (tailRun sched s).queue.length ≤ queueCap := by
  induction sched with
  | nil => intro s h; exact h
  | cons b bs ih =>
    intro s h
    show (tailRun bs (tailStep b s)).queue.length ≤ queueCap
    refine ih (tailStep b s) ?_
    unfold tailStep
    cases b
    · exact consumeStep_len s h
    · exact produceStep_len s h

/-- Claim C8: under every interleaving of the producer and the consumer, the lines
the engine has consumed followed by the queued lines and the emissions still
pending reproduce exactly the trimmed non-empty file lines in file order, so
consumption is an order-preserving prefix with no reordering and no dropped
non-empty line; the queue never exceeds its capacity of 1000. -/
theorem tailer_fifo_order (sched : List Bool) (raw : List (List Char)) :
    ((tailRun sched (tailInit raw)).consumed
        ++ (tailRun sched (tailInit raw)).queue
        ++ emittedOf (tailRun sched (tailInit raw)).pending = emittedOf raw)
    ∧ (∃ rest, (tailRun sched (tailInit raw)).consumed ++ rest = emittedOf raw)
    ∧ (tailRun sched (tailInit raw)).queue.length ≤ queueCap := by
  have hinv : tailInv (tailRun sched (tailInit raw)) = tailInv (tailInit raw) :=
    tailRun_inv sched (tailInit raw)
  have hinit : tailInv (tailInit raw) = emittedOf raw := by
    unfold tailInv tailInit
    simp
  rw [hinit] at hinv
  unfold tailInv at hinv
  refine ⟨hinv, ?_, ?_⟩
  · exact ⟨(tailRun sched (tailInit raw)).queue
      ++ emittedOf (tailRun sched (tailInit raw)).pending,
      by rw [← List.append_assoc]; exact hinv⟩
  · exact tailRun_len sched (tailInit raw) (by simp [tailInit])

/-! Loader fold lemmas -/

theorem segsOf_append (a b : List MapItem) :
    segsOf (a ++ b) = segsOf a ++ segsOf b := by
  unfold segsOf
  rw [List.filterMap_append]

theorem labsOf_append (a b : List MapItem) :
    labsOf (a ++ b) = labsOf a ++ labsOf b := by
  unfold labsOf
  rw [List.filterMap_append]

theorem endpointsOf_cons (it : MapItem) (its : List MapItem) :
    endpointsOf (it :: its) = endpointsOfItem it ++ endpointsOf its := by
  unfold endpointsOf
  rw [List.map_cons, List.flatten_cons]

theorem endpointsOf_append (a b : List MapItem) :
    endpointsOf (a ++ b) = endpointsOf a ++ endpointsOf b := by
  unfold endpointsOf
  rw [List.map_append, List.flatten_append]

theorem foldl_addItem_name : ∀ (its : List MapItem) (zm : ZoneMapM),
    (its.foldl addItem zm).name = zm.name
  | [], _ => rfl
  | it :: its, zm => by
    rw [List.foldl_cons, foldl_addItem_name its (addItem zm it)]
    cases it <;> rfl

theorem foldl_addItem_lines : ∀ (its : List MapItem) (zm : ZoneMapM),
    (its.foldl addItem zm).lines = zm.lines ++ segsOf its
  | [], zm => by simp [segsOf]
  | it :: its, zm => by
    rw [List.foldl_cons, foldl_addItem_lines its (addItem zm it)]
    cases it with
    | seg l => simp [addItem, updateBounds, segsOf]
    | lab p => simp [addItem, segsOf]

theorem foldl_addItem_labels : ∀ (its : List MapItem) (zm : ZoneMapM),
    (its.foldl addItem zm).labels = zm.labels ++ labsOf its
  | [], zm => by simp [labsOf]
  | it :: its, zm => by
    rw [List.foldl_cons, foldl_addItem_labels its (addItem zm it)]
    cases it with
    | seg l => simp [addItem, updateBounds, labsOf]
    | lab p => simp [addItem, labsOf]

theorem foldl_addItem_minX : ∀ (its : List MapItem) (zm : ZoneMapM),
    (its.foldl addItem zm).minX
      = (endpointsOf its).foldl (fun m p => minStep m p.1) zm.minX
  | [], _ => rfl
  | it :: its, zm => by
    rw [List.foldl_cons, foldl_addItem_minX its (addItem zm it),
      endpointsOf_cons, List.foldl_append]
    have h : (addItem zm it).minX
        = (endpointsOfItem it).foldl (fun m p => minStep m p.1) zm.minX := by
      cases it <;> rfl
    rw [h]

theorem foldl_addItem_maxX : ∀ (its : List MapItem) (zm : ZoneMapM),
    (its.foldl addItem zm).maxX
      = (endpointsOf its).foldl (fun m p => maxStep m p.1) zm.maxX
  | [], _ => rfl
  | it :: its, zm => by
    rw [List.foldl_cons, foldl_addItem_maxX its (addItem zm it),
      endpointsOf_cons, List.foldl_append]
    have h : (addItem zm it).maxX
        = (endpointsOfItem it).foldl (fun m p => maxStep m p.1) zm.maxX := by
      cases it <;> rfl
    rw [h]

theorem foldl_addItem_minY : ∀ (its : List MapItem) (zm : ZoneMapM),
    (its.foldl addItem zm).minY
      = (endpointsOf its).foldl (fun m p => minStep m p.2) zm.minY
  | [], _ => rfl
  | it :: its, zm => by
    rw [List.foldl_cons, foldl_addItem_minY its (addItem zm it),
      endpointsOf_cons, List.foldl_append]
    have h : (addItem zm it).minY
        = (endpointsOfItem it).foldl (fun m p => minStep m p.2) zm.minY := by
      cases it <;> rfl
    rw [h]

theorem foldl_addItem_maxY : ∀ (its : List MapItem) (zm : ZoneMapM),
    (its.foldl addItem zm).maxY
      = (endpointsOf its).foldl (fun m p => maxStep m p.2) zm.maxY
  | [], _ => rfl
  | it :: its, zm => by
    rw [List.foldl_cons, foldl_addItem_maxY its (addItem zm it),
      endpointsOf_cons, List.foldl_append]
    have h : (addItem zm it).maxY
        = (endpointsOfItem it).foldl (fun m p => maxStep m p.2) zm.maxY := by
      cases it <;> rfl
    rw [h]

theorem loadAllTargets_name (dir : List (List Char × List (List Char)))
    (zn : List Char) : (loadAllTargets dir zn).name = zn := by
  unfold loadAllTargets
  have h : ∀ (ts : List (List Char)) (zm : ZoneMapM),
      (ts.foldl (fun z t => (loadTargetItems dir t).foldl addItem z) zm).name
        = zm.name := by
    intro ts
    induction ts with
    | nil => intro zm; rfl
    | cons t ts ih =>
      intro zm
      rw [List.foldl_cons, ih, foldl_addItem_name]
  rw [h]
  rfl

theorem loadAllTargets_lines (dir : List (List Char × List (List Char)))
    (zn : List Char) :
    (loadAllTargets dir zn).lines = segsOf (allTargetItems dir zn) := by
  unfold loadAllTargets allTargetItems
  have h : ∀ (ts : List (List Char)) (zm : ZoneMapM),
      (ts.foldl (fun z t => (loadTargetItems dir t).foldl addItem z) zm).lines
        = zm.lines ++ segsOf ((ts.map (loadTargetItems dir)).flatten) := by
    intro ts
    induction ts with
    | nil => intro zm; simp [segsOf]
    | cons t ts ih =>
      intro zm
      rw [List.foldl_cons, ih, foldl_addItem_lines, List.map_cons,
        List.flatten_cons, segsOf_append, List.append_assoc]
  rw [h]
  show [] ++ _ = _
  rw [List.nil_append]

theorem loadAllTargets_labels (dir : List (List Char × List (List Char)))
    (zn : List Char) :
    (loadAllTargets dir zn).labels = labsOf (allTargetItems dir zn) := by
  unfold loadAllTargets allTargetItems
  have h : ∀ (ts : List (List Char)) (zm : ZoneMapM),
      (ts.foldl (fun z t => (loadTargetItems dir t).foldl addItem z) zm).labels
        = zm.labels ++ labsOf ((ts.map (loadTargetItems dir)).flatten) := by
    intro ts
    induction ts with
    | nil => intro zm; simp [labsOf]
    | cons t ts ih =>
      intro zm
      rw [List.foldl_cons, ih, foldl_addItem_labels, List.map_cons,
        List.flatten_cons, labsOf_append, List.append_assoc]
  rw [h]
  show [] ++ _ = _
  rw [List.nil_append]

theorem minStep_le_left (m a : ℚ) : minStep m a ≤ m := by
  unfold minStep
  split
  · exact le_of_lt (by assumption)
  · exact le_refl m

theorem minStep_le_right (m a : ℚ) : minStep m a ≤ a := by
  unfold minStep
  split
  · exact le_refl a
  · exact le_of_not_lt (by assumption)

theorem maxStep_ge_left (m a : ℚ) : m ≤ maxStep m a := by
  unfold maxStep
  split
  · exact le_of_lt (by assumption)
  · exact le_refl m

theorem maxStep_ge_right (m a : ℚ) : a ≤ maxStep m a := by
  unfold maxStep
  split
  · exact le_refl a
  · exact le_of_not_lt (by assumption)

theorem foldl_minStep_le_init : ∀ (xs : List ℚ) (m : ℚ),
    xs.foldl minStep m ≤ m
  | [], m => le_refl m
  | a :: xs, m => by
    rw [List.foldl_cons]
    exact (foldl_minStep_le_init xs (minStep m a)).trans (minStep_le_left m a)

theorem foldl_minStep_le : ∀ (xs : List ℚ) (m x : ℚ), x ∈ xs →
    xs.foldl minStep m ≤ x
  | [], _, x, hx => absurd hx (List.not_mem_nil x)
  | a :: xs, m, x, hx => by
    rw [List.foldl_cons]
    rcases List.mem_cons.mp hx with rfl | hx2
    · exact (foldl_minStep_le_init xs (minStep m x)).trans (minStep_le_right m x)
    · exact foldl_minStep_le xs (minStep m a) x hx2

theorem foldl_maxStep_ge_init : ∀ (xs : List ℚ) (m : ℚ),
    m ≤ xs.foldl maxStep m
  | [], m => le_refl m
  | a :: xs, m => by
    rw [List.foldl_cons]
    exact (maxStep_ge_left m a).trans (foldl_maxStep_ge_init xs (maxStep m a))

theorem foldl_maxStep_ge : ∀ (xs : List ℚ) (m x : ℚ), x ∈ xs →
    x ≤ xs.foldl maxStep m
  | [], _, x, hx => absurd hx (List.not_mem_nil x)
  | a :: xs, m, x, hx => by
    rw [List.foldl_cons]
    rcases List.mem_cons.mp hx with rfl | hx2
    · exact (maxStep_ge_right m x).trans (foldl_maxStep_ge_init xs (maxStep m x))
    · exact foldl_maxStep_ge xs (maxStep m a) x hx2

theorem targetHasItems_false_iff (dir : List (List Char × List (List Char)))
    (t : List Char) :
    targetHasItems dir t = false
      ↔ ∀ c, lookupFile dir t = some c → parseFileItems c = [] := by
  unfold targetHasItems
  cases hl : lookupFile dir t with
  | none => simp
  | some c => simp [List.isEmpty_iff]

/-- Claim C3: LoadZone fails with zone-not-found exactly when every one of the four
case-insensitive targets is absent or parsed to zero geometry items; on
success the returned zone map carries the requested name and the
concatenation, in target order, of every existing target's segments and
labels. -/
theorem load_zone_not_found_iff (dir : List (List Char × List (List Char)))
    (zn : List Char) :
    (LoadZone dir zn = none
      ↔ ∀ t ∈ targetsOf zn, ∀ c, lookupFile dir t = some c →
          parseFileItems c = [])
    ∧ (∀ zm, LoadZone dir zn = some zm →
        zm.name = zn
        ∧ zm.lines = segsOf (allTargetItems dir zn)
        ∧ zm.labels = labsOf (allTargetItems dir zn)) := by
  constructor
  · unfold LoadZone
    by_cases hany : (targetsOf zn).any (targetHasItems dir) = true
    · rw [if_pos hany]
      simp only [List.any_eq_true] at hany
      obtain ⟨t, ht, htrue⟩ := hany
      constructor
      · intro h
        cases h
      · intro hall
        have hfalse := (targetHasItems_false_iff dir t).mpr (hall t ht)
        rw [htrue] at hfalse
        cases hfalse
    · rw [if_neg hany]
      have hfalse : (targetsOf zn).any (targetHasItems dir) = false :=
        Bool.eq_false_iff.mpr hany
      simp only [List.any_eq_false] at hfalse
      constructor
      · intro _ t ht c hc
        exact (targetHasItems_false_iff dir t).mp
          (Bool.eq_false_iff.mpr (hfalse t ht)) c hc
      · intro _
        rfl
  · intro zm hzm
    unfold LoadZone at hzm
    by_cases hany : (targetsOf zn).any (targetHasItems dir) = true
    · rw [if_pos hany] at hzm
      obtain rfl : loadAllTargets dir zn = zm := Option.some.inj hzm
      exact ⟨loadAllTargets_name dir zn, loadAllTargets_lines dir zn,
        loadAllTargets_labels dir zn⟩
    · rw [if_neg hany] at hzm
      cases hzm

theorem loadAllTargets_minX (dir : List (List Char × List (List Char)))
    (zn : List Char) :
    (loadAllTargets dir zn).minX
      = (endpointsOf (allTargetItems dir zn)).foldl (fun m p => minStep m p.1)
          99999 := by
  unfold loadAllTargets allTargetItems
  have h : ∀ (ts : List (List Char)) (zm : ZoneMapM),
      (ts.foldl (fun z t => (loadTargetItems dir t).foldl addItem z) zm).minX
        = (endpointsOf ((ts.map (loadTargetItems dir)).flatten)).foldl
            (fun m p => minStep m p.1) zm.minX := by
    intro ts
    induction ts with
    | nil => intro zm; rfl
    | cons t ts ih =>
      intro zm
      rw [List.foldl_cons, ih, foldl_addItem_minX, List.map_cons,
        List.flatten_cons, endpointsOf_append, List.foldl_append]
  rw [h]
  rfl

theorem loadAllTargets_maxX (dir : List (List Char × List (List Char)))
    (zn : List Char) :
    (loadAllTargets dir zn).maxX
      = (endpointsOf (allTargetItems dir zn)).foldl (fun m p => maxStep m p.1)
          (-99999) := by
  unfold loadAllTargets allTargetItems
  have h : ∀ (ts : List (List Char)) (zm : ZoneMapM),
      (ts.foldl (fun z t => (loadTargetItems dir t).foldl addItem z) zm).maxX
        = (endpointsOf ((ts.map (loadTargetItems dir)).flatten)).foldl
            (fun m p => maxStep m p.1) zm.maxX := by
    intro ts
    induction ts with
    | nil => intro zm; rfl
    | cons t ts ih =>
      intro zm
      rw [List.foldl_cons, ih, foldl_addItem_maxX, List.map_cons,
        List.flatten_cons, endpointsOf_append, List.foldl_append]
  rw [h]
  rfl

theorem loadAllTargets_minY (dir : List (List Char × List (List Char)))
    (zn : List Char) :
    (loadAllTargets dir zn).minY
      = (endpointsOf (allTargetItems dir zn)).foldl (fun m p => minStep m p.2)
          99999 := by
  unfold loadAllTargets allTargetItems
  have h : ∀ (ts : List (List Char)) (zm : ZoneMapM),
      (ts.foldl (fun z t => (loadTargetItems dir t).foldl addItem z) zm).minY
        = (endpointsOf ((ts.map (loadTargetItems dir)).flatten)).foldl
            (fun m p => minStep m p.2) zm.minY := by
    intro ts
    induction ts with
    | nil => intro zm; rfl
    | cons t ts ih =>
      intro zm
      rw [List.foldl_cons, ih, foldl_addItem_minY, List.map_cons,
        List.flatten_cons, endpointsOf_append, List.foldl_append]
  rw [h]
  rfl

theorem loadAllTargets_maxY (dir : List (List Char × List (List Char)))
    (zn : List Char) :
    (loadAllTargets dir zn).maxY
      = (endpointsOf (allTargetItems dir zn)).foldl (fun m p => maxStep m p.2)
          (-99999) := by
  unfold loadAllTargets allTargetItems
  have h : ∀ (ts : List (List Char)) (zm : ZoneMapM),
      (ts.foldl (fun z t => (loadTargetItems dir t).foldl addItem z) zm).maxY
        = (endpointsOf ((ts.map (loadTargetItems dir)).flatten)).foldl
            (fun m p => maxStep m p.2) zm.maxY := by
    intro ts
    induction ts with
    | nil => intro zm; rfl
    | cons t ts ih =>
      intro zm
      rw [List.foldl_cons, ih, foldl_addItem_maxY, List.map_cons,
        List.flatten_cons, endpointsOf_append, List.foldl_append]
  rw [h]
  rfl

/-- Claim C7: a successfully loaded zone map's bounding box is the running min/max
fold, seeded with the inverted sentinel range (99999, -99999), over both
endpoints of every accepted segment in acceptance order (labels contribute
nothing), and consequently every accepted segment endpoint lies inside the
box. -/
theorem bounding_box_covers_segments
    (dir : List (List Char × List (List Char))) (zn : List Char)
    (zm : ZoneMapM) (h : LoadZone dir zn = some zm) :
    (zm.minX = (endpointsOf (allTargetItems dir zn)).foldl
        (fun m p => minStep m p.1) 99999
      ∧ zm.maxX = (endpointsOf (allTargetItems dir zn)).foldl
        (fun m p => maxStep m p.1) (-99999)
      ∧ zm.minY = (endpointsOf (allTargetItems dir zn)).foldl
        (fun m p => minStep m p.2) 99999
      ∧ zm.maxY = (endpointsOf (allTargetItems dir zn)).foldl
        (fun m p => maxStep m p.2) (-99999))
    ∧ ∀ p ∈ endpointsOf (allTargetItems dir zn),
        zm.minX ≤ p.1 ∧ p.1 ≤ zm.maxX ∧ zm.minY ≤ p.2 ∧ p.2 ≤ zm.maxY := by
  have hzm : loadAllTargets dir zn = zm := by
    unfold LoadZone at h
    by_cases hany : (targetsOf zn).any (targetHasItems dir) = true
    · rw [if_pos hany] at h
      exact Option.some.inj h
    · rw [if_neg hany] at h
      cases h
  subst hzm
  refine ⟨⟨loadAllTargets_minX dir zn, loadAllTargets_maxX dir zn,
    loadAllTargets_minY dir zn, loadAllTargets_maxY dir zn⟩, ?_⟩
  intro p hp
  rw [loadAllTargets_minX dir zn, loadAllTargets_maxX dir zn,
    loadAllTargets_minY dir zn, loadAllTargets_maxY dir zn]
  have h1 : (endpointsOf (allTargetItems dir zn)).foldl
      (fun m p => minStep m p.1) 99999
      = ((endpointsOf (allTargetItems dir zn)).map Prod.fst).foldl minStep
          99999 := by
    rw [List.foldl_map]
  have h2 : (endpointsOf (allTargetItems dir zn)).foldl
      (fun m p => maxStep m p.1) (-99999)
      = ((endpointsOf (allTargetItems dir zn)).map Prod.fst).foldl maxStep
          (-99999) := by
    rw [List.foldl_map]
  have h3 : (endpointsOf (allTargetItems dir zn)).foldl
      (fun m p => minStep m p.2) 99999
      = ((endpointsOf (allTargetItems dir zn)).map Prod.snd).foldl minStep
          99999 := by
    rw [List.foldl_map]
  have h4 : (endpointsOf (allTargetItems dir zn)).foldl
      (fun m p => maxStep m p.2) (-99999)
      = ((endpointsOf (allTargetItems dir zn)).map Prod.snd).foldl maxStep
          (-99999) := by
    rw [List.foldl_map]
  rw [h1, h2, h3, h4]
  refine ⟨?_, ?_, ?_, ?_⟩
  · exact foldl_minStep_le _ _ _ (List.mem_map_of_mem Prod.fst hp)
  · exact foldl_maxStep_ge _ _ _ (List.mem_map_of_mem Prod.fst hp)
  · exact foldl_minStep_le _ _ _ (List.mem_map_of_mem Prod.snd hp)
  · exact foldl_maxStep_ge _ _ _ (List.mem_map_of_mem Prod.snd hp)

/-- Claim C3 witness: a mixed-case base layer and a layer-1 file are found for the
code qeynos and their geometry is concatenated in target order, while an
empty directory yields the zone-not-found failure. -/
theorem load_zone_witness :
    LoadZone qDirW "qeynos".toList = some qZmW
    ∧ (qZmW.name = "qeynos".toList
       ∧ qZmW.lines = segsOf (allTargetItems qDirW "qeynos".toList)
       ∧ qZmW.labels = labsOf (allTargetItems qDirW "qeynos".toList))
    ∧ LoadZone [] "qeynos".toList = none := by
  refine ⟨by decide,
    (load_zone_not_found_iff qDirW "qeynos".toList).2 qZmW (by decide), ?_⟩
  exact (load_zone_not_found_iff [] "qeynos".toList).1.mpr
    (fun t ht c hc => Option.noConfusion hc)

/-- Claim C7 witness: the zone map loaded from qDirW has the fold bounds and its
single segment's endpoints (1,2) and (3,4) lie inside the box. -/
theorem bounding_box_witness :
    LoadZone qDirW "qeynos".toList = some qZmW
    ∧ ((qZmW.minX = (endpointsOf (allTargetItems qDirW "qeynos".toList)).foldl
          (fun m p => minStep m p.1) 99999
        ∧ qZmW.maxX = (endpointsOf (allTargetItems qDirW "qeynos".toList)).foldl
          (fun m p => maxStep m p.1) (-99999)
        ∧ qZmW.minY = (endpointsOf (allTargetItems qDirW "qeynos".toList)).foldl
          (fun m p => minStep m p.2) 99999
        ∧ qZmW.maxY = (endpointsOf (allTargetItems qDirW "qeynos".toList)).foldl
          (fun m p => maxStep m p.2) (-99999))
       ∧ ∀ p ∈ endpointsOf (allTargetItems qDirW "qeynos".toList),
           qZmW.minX ≤ p.1 ∧ p.1 ≤ qZmW.maxX ∧ qZmW.minY ≤ p.2 ∧ p.2 ≤ qZmW.maxY) :=
  ⟨by decide, bounding_box_covers_segments qDirW "qeynos".toList qZmW (by decide)⟩

/-- Claim C9 counterexample: the line L 100, 200, 0, 300, 400, 0, 256, 0, 0 has a
red channel that parses to 256, which Go's uint8 conversion truncates to 0,
so the accepted segment's color is exactly pure black (0, 0, 0, 255),
contradicting the claim that no accepted segment ever has the pure-black
color. -/
theorem pure_black_counterexample :
    parseMapLine blackMapLine = some (MapItem.seg
      { x1 := 100, y1 := 200, z1 := 0, x2 := 300, y2 := 400, z2 := 0,
        color := (0, 0, 0, 255) })
    ∧ (LoadZone [("b.txt".toList, [blackMapLine])] "b".toList).map
        (fun zm => zm.lines.map (fun l => l.color)) = some [(0, 0, 0, 255)] := by
  exact ⟨by decide, by decide⟩

/-- Claim C9 (amended): an L record with fewer than nine fields gets the default
mid-gray (150, 150, 150); with nine or more fields, all three channels
parsing to exactly 0 yields the substitute gray (130, 130, 130) and otherwise
the parsed channels are stored truncated modulo 256 with full alpha; a
segment whose three channels all parse inside 0..255 is never pure black,
though out-of-range channel values can wrap to pure black. -/
theorem color_defaulting_rule :
    (∀ raw cmd parts, lineParts raw = some (cmd, parts) → cmd = 'L' →
        6 ≤ parts.length → parts.length < 9 →
        parseMapLine raw = some (MapItem.seg (mkSeg parts))
          ∧ (mkSeg parts).color = (150, 150, 150, 255))
    ∧ (∀ r g b, parseIntGo r = 0 ∧ parseIntGo g = 0 ∧ parseIntGo b = 0 →
        parseColor r g b = (130, 130, 130, 255))
    ∧ (∀ r g b, ¬(parseIntGo r = 0 ∧ parseIntGo g = 0 ∧ parseIntGo b = 0) →
        parseColor r g b
          = ((parseIntGo r % 256).toNat, (parseIntGo g % 256).toNat,
             (parseIntGo b % 256).toNat, 255))
    ∧ (∀ r g b, 0 ≤ parseIntGo r → parseIntGo r ≤ 255 →
        0 ≤ parseIntGo g → parseIntGo g ≤ 255 →
        0 ≤ parseIntGo b → parseIntGo b ≤ 255 →
        parseColor r g b ≠ (0, 0, 0, 255)) := by
  refine ⟨?_, ?_, ?_, ?_⟩
  · intro raw cmd parts hlp hcmd h6 h9
    subst hcmd
    constructor
    · unfold parseMapLine
      rw [hlp]
      show (if ('L' : Char) = 'L' then
              if 6 ≤ parts.length then some (MapItem.seg (mkSeg parts)) else none
            else if 7 ≤ parts.length then some (MapItem.lab (mkLab parts))
            else none)
          = some (MapItem.seg (mkSeg parts))
      rw [if_pos rfl, if_pos h6]
    · simp only [mkSeg]
      rw [if_neg (by omega)]
  · intro r g b hz
    unfold parseColor
    rw [if_pos hz]
  · intro r g b hz
    unfold parseColor
    rw [if_neg hz]
  · intro r g b hr0 hr1 hg0 hg1 hb0 hb1
    unfold parseColor
    by_cases hz : parseIntGo r = 0 ∧ parseIntGo g = 0 ∧ parseIntGo b = 0
    · rw [if_pos hz]
      intro hcontra
      exact absurd hcontra (by decide)
    · rw [if_neg hz]
      intro hcontra
      have h1 : (parseIntGo r % 256).toNat = 0
          ∧ (parseIntGo g % 256).toNat = 0
          ∧ (parseIntGo b % 256).toNat = 0 := by
        simpa [Prod.ext_iff] using hcontra
      have hrm : parseIntGo r % 256 = parseIntGo r :=
        Int.emod_eq_of_lt hr0 (by omega)
      have hgm : parseIntGo g % 256 = parseIntGo g :=
        Int.emod_eq_of_lt hg0 (by omega)
      have hbm : parseIntGo b % 256 = parseIntGo b :=
        Int.emod_eq_of_lt hb0 (by omega)
      obtain ⟨e1, e2, e3⟩ := h1
      rw [hrm] at e1
      rw [hgm] at e2
      rw [hbm] at e3
      exact hz ⟨by omega, by omega, by omega⟩

/-- Claim C9 witness: the six-field grayLine gets the default mid-gray; all-zero
channels get the substitute gray; channels 10, 0, 0 are stored as parsed and
are not pure black. -/
theorem color_defaulting_witness :
    (parseMapLine grayLine = some (MapItem.seg (mkSeg grayParts))
     ∧ (mkSeg grayParts).color = (150, 150, 150, 255))
    ∧ parseColor "0".toList "0".toList "0".toList = (130, 130, 130, 255)
    ∧ parseColor "10".toList "0".toList "0".toList
        = ((parseIntGo "10".toList % 256).toNat,
           (parseIntGo "0".toList % 256).toNat,
           (parseIntGo "0".toList % 256).toNat, 255)
    ∧ parseColor "10".toList "0".toList "0".toList ≠ (0, 0, 0, 255) := by
  refine ⟨?_, ?_, ?_, ?_⟩
  · exact color_defaulting_rule.1 grayLine 'L' grayParts (by decide) rfl
      (by decide) (by decide)
  · exact color_defaulting_rule.2.1 "0".toList "0".toList "0".toList
      (by decide)
  · exact color_defaulting_rule.2.2.1 "10".toList "0".toList "0".toList
      (by decide)
  · exact color_defaulting_rule.2.2.2 "10".toList "0".toList "0".toList
      (by decide) (by decide) (by decide) (by decide) (by decide) (by decide)
